import Mathlib

/-
  Shallow embedding of the DocDownloader class (src/downloader.js) of the
  docsdownloader repository, together with proofs about its crawl loop,
  markdown-probe classification, content-acquisition dispatch, path
  derivation and write contract.

  External collaborators (axios, cheerio, turndown, the WHATWG URL parser,
  the filesystem) are modelled as oracles or as small pure models; the
  repository's own logic is translated statement by statement from the
  source.
-/

namespace DocsDL

/-! ### String utilities (substring containment, mirroring JS `includes` / regex `.test`) -/

/-- `leadMatch pat l` is true when `pat` is an initial segment of `l`. -/
def leadMatch : List Char → List Char → Bool
  | [], _ => true
  | _ :: _, [] => false
  | p :: ps, c :: cs => (p == c) && leadMatch ps cs

/-- `containsSub pat l` is true when `pat` occurs contiguously inside `l`. -/
def containsSub (pat : List Char) : List Char → Bool
  | [] => leadMatch pat []
  | c :: cs => leadMatch pat (c :: cs) || containsSub pat cs

/-- JS `s.includes(pat)` / an unanchored regex literal test on `s`. -/
def strContains (s pat : String) : Bool :=
  containsSub pat.toList s.toList

/-- JS `s.toLowerCase()` (over the ASCII range relevant here). -/
def strLower (s : String) : String :=
  String.mk (s.toList.map Char.toLower)

/-- JS `s.startsWith(pat)`. -/
def strStartsWith (s pat : String) : Bool :=
  leadMatch pat.toList s.toList

/-- JS `s.endsWith(pat)` / an end-anchored regex test. -/
def strEndsWith (s pat : String) : Bool :=
  leadMatch pat.toList.reverse s.toList.reverse

def isWsChar (c : Char) : Bool :=
  c == ' ' || c == '\t' || c == '\n' || c == '\r'

/-- JS `s.trim()`. -/
def strTrim (s : String) : String :=
  String.mk (((s.toList.dropWhile isWsChar).reverse.dropWhile isWsChar).reverse)

/-- Drop everything up to and including the first occurrence of `pat`. -/
def dropThru (pat : List Char) : List Char → List Char
  | [] => []
  | c :: cs => if leadMatch pat (c :: cs) then (c :: cs).drop pat.length else dropThru pat cs

/-- Model of the WHATWG URL parser's `pathname` for plain `scheme://host/path?q#f`
URLs (the `url` package is an external collaborator): the part from the first
`/` after the scheme-and-host, with query and fragment removed; `/` when the
URL has no path. -/
def pathnameOf (url : String) : String :=
  let rest := dropThru "://".toList url.toList
  let p := rest.dropWhile (fun c => c != '/')
  let p := p.takeWhile (fun c => c != '?' && c != '#')
  if p.isEmpty then "/" else String.mk p

/-! ### shouldSkipUrl (downloader.js lines 454-468) -/

/-- The anchored, case-insensitive extension pattern
`/\.(pdf|jpg|jpeg|png|gif|svg|ico|css|js)$/i` of `shouldSkipUrl`. -/
def extSkip (u : String) : Bool :=
  [".pdf", ".jpg", ".jpeg", ".png", ".gif", ".svg", ".ico", ".css", ".js"].any
    (fun e => strEndsWith (strLower u) e)

/-- `shouldSkipUrl(url)`: the hardcoded global skip-pattern list, each regex
tested against the url (`pattern.test(url)`), combined with `some`.  Note the
method reads only this literal list; the site-config `skipPatterns` field is
not consulted anywhere in the source. -/
def shouldSkipUrl (url : String) : Bool :=
  extSkip url || strContains url "#" || strContains url "/api/" ||
    strContains url "/login" || strContains url "/register" ||
    strContains url "/admin" || strContains url "/search" ||
    strContains url "mailto:" || strContains url "tel:"

/-! ### getFilePath (downloader.js lines 470-490) -/

/-- The characters replaced by `_` in `pathname.replace(/[<>:\"|?*]/g, '_')`. -/
def badChar (c : Char) : Bool :=
  c == '<' || c == '>' || c == ':' || c == '"' || c == '|' || c == '?' || c == '*'

/-- The `.md` extension as characters. -/
def mdExt : List Char := ['.', 'm', 'd']

/-- `pathname.replace(/\/$/, '')`: strip one trailing slash. -/
def stripTrailSlash (l : List Char) : List Char :=
  if l.getLast? == some '/' then l.dropLast else l

/-- `pathname.replace(/^\//, '')`: strip one leading slash. -/
def stripLeadSlash (l : List Char) : List Char :=
  if l.head? == some '/' then l.tail else l

/-- `if (pathname === '/' || pathname === '') pathname = '/index'`. -/
def normalizeRoot (pathname : List Char) : List Char :=
  if pathname = [] ∨ pathname = ['/'] then "/index".toList else pathname

/-- `if (!pathname.endsWith('.md')) pathname += '.md'`. -/
def ensureMdExt (l : List Char) : List Char :=
  if decide (mdExt <:+ l) then l else l ++ mdExt

/-- `pathname.replace(/[<>:\"|?*]/g, '_')`. -/
def sanitizeChars (l : List Char) : List Char :=
  l.map (fun c => if badChar c then '_' else c)

/-- The body of `getFilePath` acting on the URL's pathname characters:
empty or `/` becomes `/index`; strip a trailing slash; append `.md` when the
name does not already end in `.md`; strip the leading slash; replace each of
`<>:"|?*` by `_`. -/
def derivePathChars (pathname : List Char) : List Char :=
  sanitizeChars (stripLeadSlash (ensureMdExt (stripTrailSlash (normalizeRoot pathname))))

/-- `getFilePath(url, baseUrl, siteDir)` (the `baseUrl` parameter is unused in
the source); `path.join(siteDir, safePath)` is modelled as concatenation with
`/` since `safePath` is relative and non-empty. -/
def getFilePath (siteDir url : String) : String :=
  siteDir ++ "/" ++ String.mk (derivePathChars (pathnameOf url).toList)

/-! ### Filesystem model and saveMarkdown (downloader.js lines 492-512) -/

/-- The filesystem seen through `fs-extra`: files as path-content pairs and the
set of directories that `ensureDir` created. -/
structure Fs where
  files : List (String × String)
  dirs : List String
deriving DecidableEq

/-- `fs.pathExists(filePath)`. -/
def pathExists (fs : Fs) (p : String) : Bool :=
  fs.files.any (fun kv => kv.fst == p)

/-- `path.dirname`: the portion before the final `/` (model of the external
`path` package, adequate for relative joined paths). -/
def parentDir (p : String) : String :=
  let r := p.toList.reverse.dropWhile (fun c => c != '/')
  match r with
  | [] => "."
  | _ :: rest => String.mk rest.reverse

/-- `fs.ensureDir(dir)`. -/
def ensureDir (fs : Fs) (d : String) : Fs :=
  if d ∈ fs.dirs then fs else { fs with dirs := d :: fs.dirs }

/-- `fs.writeFile(filePath, content, 'utf-8')`: replaces any previous entry. -/
def writeFileFs (fs : Fs) (p content : String) : Fs :=
  { fs with files := (p, content) :: fs.files.filter (fun kv => kv.fst != p) }

def lookupFile (fs : Fs) (p : String) : Option String :=
  (fs.files.find? (fun kv => kv.fst == p)).map Prod.snd

/-- The metadata header built at line 502, with the ambient
`new Date().toISOString()` supplied as the `ts` argument. -/
def metaHeader (sourceUrl ts : String) : String :=
  "---\nsource_url: " ++ sourceUrl ++ "\ndownloaded_at: " ++ ts ++ "\n---\n\n"

/-- `saveMarkdown(markdown, filePath, sourceUrl)`: skip silently when the file
exists and force is off; otherwise ensure the parent directory and write the
content, prefixed by the metadata header exactly when `includeMetadata`. -/
def saveMarkdown (force includeMeta : Bool) (fs : Fs)
    (markdown filePath sourceUrl ts : String) : Fs :=
  if !force && pathExists fs filePath then fs
  else
    let content := if includeMeta then metaHeader sourceUrl ts ++ markdown else markdown
    writeFileFs (ensureDir fs (parentDir filePath)) filePath content

/-! ### Markdown-probe HEAD classification (downloader.js lines 179-211) -/

/-- `response.headers['content-type']?.toLowerCase() || ''`. -/
def contentTypeOf (hdr : Option String) : String :=
  (hdr.map strLower).getD ""

/-- Acceptance of a probe candidate in the HEAD case (no body retrieved,
lines 179 and 193-206): status 200 or 206, the relaxed `isLikelyMarkdown`
content-type check (which also accepts any candidate URL ending in `.md`),
and content-type not containing `text/html`. -/
def headAccepted (status : Nat) (hdr : Option String) (mdUrl : String) : Bool :=
  (status == 200 || status == 206) &&
    ((strContains (contentTypeOf hdr) "text/plain" ||
      strContains (contentTypeOf hdr) "markdown" ||
      strContains (contentTypeOf hdr) "text/markdown" ||
      strContains (contentTypeOf hdr) "application/octet-stream" ||
      contentTypeOf hdr == "" ||
      strEndsWith mdUrl ".md") &&
     !(strContains (contentTypeOf hdr) "text/html"))

/-- Modelled from the spec: acceptance in the HEAD case as the specification
states it — status 200 or 206, content-type blank / `text/plain` / a markdown
MIME / `application/octet-stream`, and not `text/html` — written here for
comparison with the source's `headAccepted`.  The spec mentions no
URL-suffix disjunct. -/
def headAcceptedSpec (status : Nat) (hdr : Option String) : Bool :=
  (status == 200 || status == 206) &&
    ((contentTypeOf hdr == "" ||
      strContains (contentTypeOf hdr) "text/plain" ||
      strContains (contentTypeOf hdr) "markdown" ||
      strContains (contentTypeOf hdr) "application/octet-stream") &&
     !(strContains (contentTypeOf hdr) "text/html"))

/-! ### Crawl environment -/

/-- Site-specific configuration record (config.json entry for one hostname);
absence of a hostname yields the default record. -/
structure SiteConfig where
  contentSelector : Option String := none
  skipPatterns : List String := []
  maxDepth : Option Nat := none
  preferMarkdown : Bool := false

/-- The result of `new URL(href, base)`: the resolved absolute URL string and
its hostname. -/
structure UrlParts where
  href : String
  hostname : String
deriving DecidableEq

/-- Network and library oracles surrounding the crawl loop.  `fetch` is the
outcome of `fetchPage` (`none` = all retries failed); `anchors` lists the
`a[href]` attribute values cheerio finds in a given HTML document; `resolve`
is the URL parser (`none` = the constructor throws); `probe` is the outcome of
`checkForMarkdownVersion`; `mdFetch` is the body and content-type header of
the `axios.get(mdUrl)` inside `downloadMarkdown` (`none` = request error);
`extract` and `convert` are `extractContent` (on the given HTML, with the
given page URL) and `this.turndown.turndown`; `now` is `new Date().toISOString()`. -/
structure Env where
  fetch : String → Option String
  anchors : String → List String
  resolve : String → String → Option UrlParts
  probe : String → Option String
  mdFetch : String → Option (String × Option String)
  extract : String → String → String
  convert : String → String
  now : String

/-- The constructor options and per-run constants of one `download(startUrl)`
call: `maxDepth` is the global `this.maxDepth`, `baseHost` is
`new URL(startUrl).hostname`, `siteDir` the per-site output directory, and
`siteCfg` the loaded `this.siteConfig` as a hostname-indexed lookup. -/
structure Params where
  env : Env
  siteCfg : String → SiteConfig
  force : Bool
  includeMetadata : Bool
  maxDepth : Nat
  baseHost : String
  siteDir : String

/-! ### downloadMarkdown (downloader.js lines 242-270) -/

/-- The arguments of one `saveMarkdown` invocation. -/
structure SaveCall where
  markdown : String
  filePath : String
  sourceUrl : String
deriving DecidableEq

/-- Lines 248-251: the fetched "markdown" body is actually HTML when its
trimmed text starts with an HTML doctype or `<html`, or the content-type
contains `text/html`. -/
def isHtmlResp (content : String) (hdr : Option String) : Bool :=
  strStartsWith (strTrim content) "<!DOCTYPE html" ||
    strStartsWith (strTrim content) "<html" ||
    strContains (contentTypeOf hdr) "text/html"

/-- `downloadMarkdown(mdUrl, originalUrl, siteDir)` reduced to the
`saveMarkdown` call it makes (`none` = no save: the fetch of `mdUrl` failed).
In the HTML case the body fetched from `mdUrl` is extracted (with
`originalUrl` selecting site rules) and converted, and `originalUrl` is the
recorded source; otherwise the body is saved verbatim with `mdUrl` as the
recorded source.  Both branches derive the file path from `originalUrl`. -/
def downloadMarkdownCall (p : Params) (mdUrl originalUrl : String) : Option SaveCall :=
  match p.env.mdFetch mdUrl with
  | none => none
  | some (content, hdr) =>
    if isHtmlResp content hdr then
      some ⟨p.env.convert (p.env.extract content originalUrl),
            getFilePath p.siteDir originalUrl, originalUrl⟩
    else
      some ⟨content, getFilePath p.siteDir originalUrl, mdUrl⟩

/-- `downloadMarkdown` acting on the filesystem. -/
def downloadMarkdownRun (p : Params) (mdUrl originalUrl : String) (fs : Fs) : Fs :=
  match downloadMarkdownCall p mdUrl originalUrl with
  | none => fs
  | some c => saveMarkdown p.force p.includeMetadata fs c.markdown c.filePath c.sourceUrl p.env.now

/-! ### Link discovery (downloader.js lines 424-452) -/

/-- A frontier entry `{url, depth}`. -/
structure Entry where
  url : String
  depth : Nat
deriving DecidableEq

/-- The `$('a[href]').each` loop body: skip falsy hrefs, resolve against the
current URL (invalid URLs are skipped), keep same-hostname links that match no
skip pattern, and deduplicate preserving first-insertion order (the JS `Set`). -/
def collectLinks (p : Params) (currentUrl : String) : List String → List String → List String
  | acc, [] => acc
  | acc, href :: rest =>
    if href == "" then collectLinks p currentUrl acc rest
    else
      match p.env.resolve href currentUrl with
      | none => collectLinks p currentUrl acc rest
      | some u =>
        if u.hostname != p.baseHost then collectLinks p currentUrl acc rest
        else if shouldSkipUrl u.href then collectLinks p currentUrl acc rest
        else if u.href ∈ acc then collectLinks p currentUrl acc rest
        else collectLinks p currentUrl (acc ++ [u.href]) rest

/-- The contents of the local `links` set of `findAndQueueLinks`. -/
def dedupedLinks (p : Params) (html currentUrl : String) : List String :=
  collectLinks p currentUrl [] (p.env.anchors html)

/-- `findAndQueueLinks($, currentUrl, baseUrl, currentDepth)`: push each
not-yet-visited collected link onto the queue at `currentDepth + 1`. -/
def findAndQueueLinks (p : Params) (html currentUrl : String)
    (visited : List String) (queue : List Entry) (currentDepth : Nat) : List Entry :=
  queue ++ ((dedupedLinks p html currentUrl).filter (fun l => decide (l ∉ visited))).map
    (fun l => ⟨l, currentDepth + 1⟩)

/-! ### processPage and the download loop (downloader.js lines 55-127) -/

/-- Mutable per-run crawl state: `this.visited`, `this.queue`, and the
filesystem reached through `saveMarkdown`. -/
structure CrawlSt where
  visited : List String
  queue : List Entry
  fs : Fs
deriving DecidableEq

/-- Observable micro-events of one `processPage` call, in program order:
the visited-set insertion, the politeness delay, the page GET, the probe's
batch of HEAD/GET candidate requests, and the markdown GET. -/
inductive MicroEv where
  | addVisited (url : String)
  | wait (ms : Nat)
  | net (url : String)
  | probeNet (url : String)
deriving DecidableEq

/-- The content branch of `processPage` (lines 102-126) reduced to the
`saveMarkdown` call it makes: a found markdown version wins; otherwise
`preferMarkdown` skips persistence; otherwise the already-fetched HTML is
extracted and converted. -/
def pageSaveCall (p : Params) (url html : String) : Option SaveCall :=
  match p.env.probe url with
  | some mdUrl => downloadMarkdownCall p mdUrl url
  | none =>
    if (p.siteCfg p.baseHost).preferMarkdown then none
    else some ⟨p.env.convert (p.env.extract html url), getFilePath p.siteDir url, url⟩

/-- `processPage(url, depth, baseUrl, siteDir)`: mark visited first, delay,
fetch (a failed fetch abandons the page), queue links when
`depth < this.maxDepth`, then run the content branch.  Returns the updated
state and the micro-event list. -/
def processPage (p : Params) (url : String) (depth : Nat) (st : CrawlSt) :
    CrawlSt × List MicroEv :=
  let st1 : CrawlSt := { st with visited := url :: st.visited }
  match p.env.fetch url with
  | none => (st1, [MicroEv.addVisited url, MicroEv.wait 500, MicroEv.net url])
  | some html =>
    let st2 : CrawlSt :=
      if depth < p.maxDepth then
        { st1 with queue := findAndQueueLinks p html url st1.visited st1.queue depth }
      else st1
    let fsOut : Fs :=
      match pageSaveCall p url html with
      | none => st2.fs
      | some c =>
        saveMarkdown p.force p.includeMetadata st2.fs c.markdown c.filePath c.sourceUrl p.env.now
    ({ st2 with fs := fsOut },
     [MicroEv.addVisited url, MicroEv.wait 500, MicroEv.net url, MicroEv.probeNet url] ++
       (match p.env.probe url with
        | some m => [MicroEv.net m]
        | none => []))

/-- The `while (this.queue.length > 0)` loop of `download` (lines 68-80),
with explicit fuel; returns the final state and the trace of entries that
were dequeued and actually processed (not discarded).  Line 71: a popped
entry is discarded when its URL is already visited or its depth exceeds the
global `this.maxDepth`. -/
def crawlLoop (p : Params) : Nat → CrawlSt → CrawlSt × List (String × Nat)
  | 0, st => (st, [])
  | fuel + 1, st =>
    match st.queue with
    | [] => (st, [])
    | e :: rest =>
      if e.url ∈ st.visited ∨ e.depth > p.maxDepth then
        crawlLoop p fuel { st with queue := rest }
      else
        let r := crawlLoop p fuel (processPage p e.url e.depth { st with queue := rest }).1
        (r.1, (e.url, e.depth) :: r.2)

/-- The state set up by `download(startUrl)` before the loop: visited cleared,
queue seeded with `(startUrl, 0)`, the site directory ensured. -/
def initState (p : Params) (startUrl : String) (fs0 : Fs) : CrawlSt :=
  { visited := [], queue := [⟨startUrl, 0⟩], fs := ensureDir fs0 p.siteDir }

/-- `download(startUrl)` with explicit loop fuel. -/
def download (p : Params) (startUrl : String) (fuel : Nat) (fs0 : Fs) :
    CrawlSt × List (String × Nat) :=
  crawlLoop p fuel (initState p startUrl fs0)

/-! ### Termination measure -/

/-- The links a page would contribute, independent of the visited filter
(`[]` when its fetch fails). -/
def pageLinks (p : Params) (u : String) : List String :=
  match p.env.fetch u with
  | none => []
  | some html => dedupedLinks p html u

/-- Weight of a URL with `k` remaining depth levels: every chain of link
hops below it that the crawl could still follow, counted as a tree. -/
def linkW (p : Params) : Nat → String → Nat
  | 0, _ => 1
  | k + 1, u => 1 + ((pageLinks p u).map (linkW p k)).sum

def entryWeight (p : Params) (e : Entry) : Nat :=
  linkW p (p.maxDepth - e.depth) e.url

def queueWeight (p : Params) (q : List Entry) : Nat :=
  (q.map (entryWeight p)).sum

/-- Loop fuel sufficient for a whole run from the seed. -/
def runFuel (p : Params) (startUrl : String) : Nat :=
  queueWeight p [⟨startUrl, 0⟩]

/-! ### fetchPage retry loop (downloader.js lines 272-313) -/

def maxRetries : Nat := 3
def retryDelay : Nat := 1000

/-- Result of the `fetchPage` retry loop: the returned response body (or
`null`), how many attempts were made, and the delays slept between
consecutive attempts. -/
structure FetchTrace where
  result : Option String
  attempts : Nat
  delays : List Nat
deriving DecidableEq

/-- The `for (let attempt = 1; attempt <= maxRetries; attempt++)` loop with
`outcome n` the result of the `axios.get` on attempt `n`: return on success;
on failure of the last attempt return `null`; otherwise sleep
`retryDelay * attempt` and try again. -/
def fetchAttempts (outcome : Nat → Option String) (attempt : Nat) : Nat → FetchTrace
  | 0 => ⟨none, 0, []⟩
  | remaining + 1 =>
    match outcome attempt with
    | some body => ⟨some body, 1, []⟩
    | none =>
      if remaining = 0 then ⟨none, 1, []⟩
      else
        let rest := fetchAttempts outcome (attempt + 1) remaining
        ⟨rest.result, rest.attempts + 1, retryDelay * attempt :: rest.delays⟩

/-- `fetchPage(url)` as a function of the per-attempt outcomes. -/
def fetchPage (outcome : Nat → Option String) : FetchTrace :=
  fetchAttempts outcome 1 maxRetries

/-! ### Spec-side comparison definition for the depth bound -/

/-- Modelled from the spec: the "effective maximum depth" the specification
claims the dequeue check uses — the per-hostname `maxDepth` override when
present, else the globally supplied bound.  Written for comparison with the
source's check, which reads only `this.maxDepth`. -/
def specEffectiveMaxDepth (cfg : SiteConfig) (globalMax : Nat) : Nat :=
  cfg.maxDepth.getD globalMax

/-! ### Concrete scenario instances -/

/-- Scenario: seed page `https://h/a` links to `https://h/b`; every URL parses
with hostname `h`; no markdown versions exist. -/
def envC1 : Env :=
  { fetch := fun u =>
      if u == "https://h/a" then some "htmlA" else if u == "https://h/b" then some "htmlB" else none
  , anchors := fun html => if html == "htmlA" then ["https://h/b"] else []
  , resolve := fun href _ => some ⟨href, "h"⟩
  , probe := fun _ => none
  , mdFetch := fun _ => none
  , extract := fun h _ => h
  , convert := fun s => s
  , now := "T" }

/-- Run parameters: global `--depth 1`, site config `{"h": {"maxDepth": 0}}`. -/
def pC1 : Params :=
  { env := envC1
  , siteCfg := fun h => if h == "h" then { maxDepth := some 0 } else {}
  , force := true, includeMetadata := false, maxDepth := 1, baseHost := "h", siteDir := "out/h" }

/-- Scenario: seed page `https://h/a` links to `https://h/changelog`. -/
def envC3 : Env :=
  { fetch := fun u => if u == "https://h/a" then some "htmlA3" else none
  , anchors := fun html => if html == "htmlA3" then ["https://h/changelog"] else []
  , resolve := fun href _ => some ⟨href, "h"⟩
  , probe := fun _ => none
  , mdFetch := fun _ => none
  , extract := fun h _ => h
  , convert := fun s => s
  , now := "T" }

/-- Run parameters: site config `{"h": {"skipPatterns": ["/changelog"]}}`. -/
def pC3 : Params :=
  { env := envC3
  , siteCfg := fun h => if h == "h" then { skipPatterns := ["/changelog"] } else {}
  , force := true, includeMetadata := false, maxDepth := 3, baseHost := "h", siteDir := "out/h" }

/-- Scenario: the page `https://h/a` serves the HTML document
`<html>AAA</html>`; the probe finds the candidate `https://h/a.md`, but
fetching that candidate returns the (different) HTML document
`<html>BBB</html>`.  Extraction and conversion are the identity oracles so
the two conversion results stay distinguishable. -/
def envC2 : Env :=
  { fetch := fun u => if u == "https://h/a" then some "<html>AAA</html>" else none
  , anchors := fun _ => []
  , resolve := fun _ _ => none
  , probe := fun u => if u == "https://h/a" then some "https://h/a.md" else none
  , mdFetch := fun u => if u == "https://h/a.md" then some ("<html>BBB</html>", none) else none
  , extract := fun h _ => h
  , convert := fun s => s
  , now := "T" }

def pC2 : Params :=
  { env := envC2, siteCfg := fun _ => {}
  , force := true, includeMetadata := false, maxDepth := 3, baseHost := "h", siteDir := "out/h" }

/-- Scenario: the probe candidate `https://h/m.md` serves genuine markdown
`# Title` with content-type `text/plain`; metadata mode is on. -/
def envC10 : Env :=
  { fetch := fun _ => none
  , anchors := fun _ => []
  , resolve := fun _ _ => none
  , probe := fun _ => none
  , mdFetch := fun u => if u == "https://h/m.md" then some ("# Title", some "text/plain") else none
  , extract := fun h _ => h
  , convert := fun s => s
  , now := "T" }

def pC10 : Params :=
  { env := envC10, siteCfg := fun _ => {}
  , force := true, includeMetadata := true, maxDepth := 3, baseHost := "h", siteDir := "out/h" }

/-- Scenario: every network fetch fails (all retries exhausted on every URL). -/
def envC8 : Env :=
  { fetch := fun _ => none
  , anchors := fun _ => []
  , resolve := fun _ _ => none
  , probe := fun _ => none
  , mdFetch := fun _ => none
  , extract := fun h _ => h
  , convert := fun s => s
  , now := "T" }

def pC8 : Params :=
  { env := envC8, siteCfg := fun _ => {}
  , force := false, includeMetadata := false, maxDepth := 3, baseHost := "h", siteDir := "out/h" }

/-! ## Lemmas and theorems -/

/-! ### processPage and crawlLoop unfolding -/

lemma processPage_visited (p : Params) (url : String) (d : Nat) (st : CrawlSt) :
    ((processPage p url d st).1).visited = url :: st.visited := by
  unfold processPage
  cases hf : p.env.fetch url with
  | none => rfl
  | some html =>
    dsimp only
    split <;> rfl

lemma processPage_queue_none (p : Params) (url : String) (d : Nat) (st : CrawlSt)
    (hf : p.env.fetch url = none) :
    ((processPage p url d st).1).queue = st.queue := by
  unfold processPage
  rw [hf]

lemma processPage_queue_some (p : Params) (url html : String) (d : Nat) (st : CrawlSt)
    (hf : p.env.fetch url = some html) :
    ((processPage p url d st).1).queue =
      if d < p.maxDepth then findAndQueueLinks p html url (url :: st.visited) st.queue d
      else st.queue := by
  unfold processPage
  rw [hf]
  dsimp only
  split <;> rfl

lemma processPage_fs_none (p : Params) (url : String) (d : Nat) (st : CrawlSt)
    (hf : p.env.fetch url = none) :
    ((processPage p url d st).1).fs = st.fs := by
  unfold processPage
  rw [hf]

lemma processPage_events_head (p : Params) (url : String) (d : Nat) (st : CrawlSt) :
    ((processPage p url d st).2).head? = some (MicroEv.addVisited url) := by
  unfold processPage
  cases hf : p.env.fetch url with
  | none => rfl
  | some html => rfl

lemma crawlLoop_zero (p : Params) (st : CrawlSt) : crawlLoop p 0 st = (st, []) := rfl

lemma crawlLoop_nilq (p : Params) (fuel : Nat) (st : CrawlSt) (h : st.queue = []) :
    crawlLoop p fuel st = (st, []) := by
  obtain ⟨v, q, f⟩ := st
  dsimp only at h
  subst h
  cases fuel <;> rfl

lemma crawlLoop_cons_discard (p : Params) (fuel : Nat) (st : CrawlSt) (e : Entry)
    (rest : List Entry) (h : st.queue = e :: rest)
    (hd : e.url ∈ st.visited ∨ e.depth > p.maxDepth) :
    crawlLoop p (fuel + 1) st = crawlLoop p fuel { st with queue := rest } := by
  obtain ⟨v, q, f⟩ := st
  dsimp only at h hd ⊢
  subst h
  simp only [crawlLoop]
  rw [if_pos hd]

lemma crawlLoop_cons_process (p : Params) (fuel : Nat) (st : CrawlSt) (e : Entry)
    (rest : List Entry) (h : st.queue = e :: rest)
    (hd : ¬(e.url ∈ st.visited ∨ e.depth > p.maxDepth)) :
    crawlLoop p (fuel + 1) st =
      ((crawlLoop p fuel (processPage p e.url e.depth { st with queue := rest }).1).1,
       (e.url, e.depth) ::
         (crawlLoop p fuel (processPage p e.url e.depth { st with queue := rest }).1).2) := by
  obtain ⟨v, q, f⟩ := st
  dsimp only at h hd ⊢
  subst h
  simp only [crawlLoop]
  rw [if_neg hd]

/-! ### The termination measure decreases -/

lemma linkW_pos (p : Params) (k : Nat) (u : String) : 1 ≤ linkW p k u := by
  cases k with
  | zero => exact Nat.le_refl 1
  | succ k => exact Nat.le_add_right 1 _

lemma queueWeight_nil (p : Params) : queueWeight p [] = 0 := rfl

lemma queueWeight_cons (p : Params) (e : Entry) (q : List Entry) :
    queueWeight p (e :: q) = entryWeight p e + queueWeight p q := by
  simp [queueWeight]

lemma queueWeight_append (p : Params) (q1 q2 : List Entry) :
    queueWeight p (q1 ++ q2) = queueWeight p q1 + queueWeight p q2 := by
  simp [queueWeight]

lemma sum_filter_le {α : Type} (f : α → Nat) (pr : α → Bool) :
    ∀ l : List α, ((l.filter pr).map f).sum ≤ (l.map f).sum := by
  intro l
  induction l with
  | nil => simp
  | cons a t ih =>
    by_cases h : pr a = true
    · simp only [List.filter_cons, h, if_pos, List.map_cons, List.sum_cons]
      exact Nat.add_le_add_left ih _
    · simp only [List.filter_cons, h, Bool.false_eq_true, if_neg, List.map_cons, List.sum_cons,
        if_false]
      exact Nat.le_trans ih (Nat.le_add_left _ _)

lemma entryWeight_unfold (p : Params) (u : String) (d : Nat) (h : d < p.maxDepth) :
    entryWeight p ⟨u, d⟩ =
      1 + ((pageLinks p u).map (linkW p (p.maxDepth - (d + 1)))).sum := by
  have hk : p.maxDepth - d = (p.maxDepth - (d + 1)) + 1 := by omega
  simp only [entryWeight]
  rw [hk]
  rfl

/-- One non-discarded loop iteration strictly decreases the queue weight. -/
lemma step_weight (p : Params) (st : CrawlSt) (e : Entry) (rest : List Entry)
    (h : st.queue = e :: rest) :
    queueWeight p ((processPage p e.url e.depth { st with queue := rest }).1).queue + 1 ≤
      queueWeight p st.queue := by
  rw [h, queueWeight_cons]
  cases hf : p.env.fetch e.url with
  | none =>
    rw [processPage_queue_none p e.url e.depth _ hf]
    have := linkW_pos p (p.maxDepth - e.depth) e.url
    simp only [entryWeight] at *
    omega
  | some html =>
    rw [processPage_queue_some p e.url html e.depth _ hf]
    by_cases hlt : e.depth < p.maxDepth
    · rw [if_pos hlt]
      simp only [findAndQueueLinks]
      rw [queueWeight_append]
      have hnew :
          queueWeight p
              (((dedupedLinks p html e.url).filter
                  (fun l => decide (l ∉ e.url :: st.visited))).map
                (fun l => (⟨l, e.depth + 1⟩ : Entry))) ≤
            ((pageLinks p e.url).map (linkW p (p.maxDepth - (e.depth + 1)))).sum := by
      -- the filtered sublist weighs no more than all the page's links
        have hpl : pageLinks p e.url = dedupedLinks p html e.url := by
          simp [pageLinks, hf]
        rw [hpl]
        simp only [queueWeight, List.map_map]
        have : ∀ l : List String,
            (l.map ((entryWeight p) ∘ (fun l => (⟨l, e.depth + 1⟩ : Entry)))).sum =
              (l.map (linkW p (p.maxDepth - (e.depth + 1)))).sum := by
          intro l
          congr 1
        rw [this]
        exact sum_filter_le _ _ _
      have hew := entryWeight_unfold p e.url e.depth hlt
      have : entryWeight p e = entryWeight p ⟨e.url, e.depth⟩ := rfl
      omega
    · rw [if_neg hlt]
      have := linkW_pos p (p.maxDepth - e.depth) e.url
      simp only [entryWeight] at *
      omega

/-- Queue weight is an upper bound on the fuel needed to drain the queue. -/
lemma crawl_fuel_sufficient (p : Params) :
    ∀ fuel st, queueWeight p st.queue ≤ fuel → ((crawlLoop p fuel st).1).queue = [] := by
  intro fuel
  induction fuel with
  | zero =>
    intro st hw
    cases hq : st.queue with
    | nil => rw [crawlLoop_nilq p 0 st hq]; exact hq
    | cons e rest =>
      rw [hq, queueWeight_cons] at hw
      have h1 := linkW_pos p (p.maxDepth - e.depth) e.url
      have h2 : entryWeight p e = linkW p (p.maxDepth - e.depth) e.url := rfl
      omega
  | succ fuel ih =>
    intro st hw
    cases hq : st.queue with
    | nil => rw [crawlLoop_nilq p (fuel + 1) st hq]; exact hq
    | cons e rest =>
      by_cases hd : e.url ∈ st.visited ∨ e.depth > p.maxDepth
      · rw [crawlLoop_cons_discard p fuel st e rest hq hd]
        apply ih
        rw [hq, queueWeight_cons] at hw
        have h1 := linkW_pos p (p.maxDepth - e.depth) e.url
        have h2 : entryWeight p e = linkW p (p.maxDepth - e.depth) e.url := rfl
        have h3 : queueWeight p ({ st with queue := rest } : CrawlSt).queue =
            queueWeight p rest := rfl
        omega
      · rw [crawlLoop_cons_process p fuel st e rest hq hd]
        apply ih
        have hsw := step_weight p st e rest hq
        rw [hq] at hsw
        rw [hq, queueWeight_cons] at hw
        rw [queueWeight_cons] at hsw
        omega

/-! ### Trace invariants -/

/-- The urls of the processed-entry trace are pairwise distinct and none of
them was visited before the loop started. -/
lemma crawl_trace_fresh (p : Params) :
    ∀ fuel st, (((crawlLoop p fuel st).2).map Prod.fst).Nodup ∧
      ∀ u ∈ ((crawlLoop p fuel st).2).map Prod.fst, u ∉ st.visited := by
  intro fuel
  induction fuel with
  | zero =>
    intro st
    rw [crawlLoop_zero]
    simp
  | succ fuel ih =>
    intro st
    cases hq : st.queue with
    | nil =>
      rw [crawlLoop_nilq p (fuel + 1) st hq]
      simp
    | cons e rest =>
      by_cases hd : e.url ∈ st.visited ∨ e.depth > p.maxDepth
      · rw [crawlLoop_cons_discard p fuel st e rest hq hd]
        exact ih _
      · rw [crawlLoop_cons_process p fuel st e rest hq hd]
        obtain ⟨ihn, ihf⟩ := ih (processPage p e.url e.depth { st with queue := rest }).1
        have hv : ((processPage p e.url e.depth { st with queue := rest }).1).visited =
            e.url :: st.visited := processPage_visited p e.url e.depth _
        constructor
        · simp only [List.map_cons, List.nodup_cons]
          refine ⟨fun hmem => ?_, ihn⟩
          have := ihf e.url hmem
          rw [hv] at this
          exact this (List.mem_cons_self _ _)
        · intro u hu
          simp only [List.map_cons, List.mem_cons] at hu
          rcases hu with rfl | hu
          · intro hmem
            exact hd (Or.inl hmem)
          · have := ihf u hu
            rw [hv] at this
            intro hmem
            exact this (List.mem_cons_of_mem _ hmem)

/-- URLs are never removed from the visited set during a run. -/
lemma crawl_visited_mono (p : Params) :
    ∀ fuel st u, u ∈ st.visited → u ∈ ((crawlLoop p fuel st).1).visited := by
  intro fuel
  induction fuel with
  | zero =>
    intro st u hu
    rw [crawlLoop_zero]
    exact hu
  | succ fuel ih =>
    intro st u hu
    cases hq : st.queue with
    | nil =>
      rw [crawlLoop_nilq p (fuel + 1) st hq]
      exact hu
    | cons e rest =>
      by_cases hd : e.url ∈ st.visited ∨ e.depth > p.maxDepth
      · rw [crawlLoop_cons_discard p fuel st e rest hq hd]
        exact ih _ u hu
      · rw [crawlLoop_cons_process p fuel st e rest hq hd]
        apply ih
        rw [processPage_visited]
        exact List.mem_cons_of_mem _ hu

/-! ### Path derivation lemmas -/

lemma ensureMdExt_suffix (l : List Char) : mdExt <:+ ensureMdExt l := by
  unfold ensureMdExt
  by_cases h : mdExt <:+ l
  · rw [if_pos (decide_eq_true h)]
    exact h
  · rw [if_neg (by simpa using h)]
    exact List.suffix_append l mdExt

lemma stripLeadSlash_keeps_mdExt {l : List Char} (h : mdExt <:+ l) :
    mdExt <:+ stripLeadSlash l := by
  unfold stripLeadSlash
  by_cases hh : l.head? == some '/'
  · rw [if_pos hh]
    cases l with
    | nil => simp at hh
    | cons c t =>
      have hc : c = '/' := by simpa using hh
      subst hc
      rcases List.suffix_cons_iff.mp h with h1 | h1
      · exact absurd (congrArg List.head? h1) (by simp [mdExt])
      · exact h1
  · rw [if_neg hh]
    exact h

lemma sanitizeChars_keeps_mdExt {l : List Char} (h : mdExt <:+ l) :
    mdExt <:+ sanitizeChars l := by
  obtain ⟨t, rfl⟩ := h
  unfold sanitizeChars
  rw [List.map_append]
  have hmd : mdExt.map (fun c => if badChar c then '_' else c) = mdExt := rfl
  rw [hmd]
  exact ⟨_, rfl⟩

/-! ### saveMarkdown lemmas -/

lemma ensureDir_files (fs : Fs) (d : String) : (ensureDir fs d).files = fs.files := by
  unfold ensureDir
  split <;> rfl

lemma ensureDir_mem (fs : Fs) (d : String) : d ∈ (ensureDir fs d).dirs := by
  unfold ensureDir
  split
  · assumption
  · exact List.mem_cons_self _ _

lemma lookup_write (fs : Fs) (p c : String) :
    lookupFile (writeFileFs fs p c) p = some c := by
  simp [lookupFile, writeFileFs, List.find?]

lemma writeFileFs_dirs (fs : Fs) (p c : String) : (writeFileFs fs p c).dirs = fs.dirs := rfl

lemma linkW_fetch_none (p : Params) (u : String) (hf : p.env.fetch u = none) (k : Nat) :
    linkW p k u = 1 := by
  cases k with
  | zero => rfl
  | succ k => simp [linkW, pageLinks, hf]

/-! ### Claim theorems -/

/-- C1: the dequeue check of the download loop reads only the global
`this.maxDepth`; the per-hostname `maxDepth` override is never consulted.
With global bound 1 and site config `{"h": {"maxDepth": 0}}`, the run
processes the entry `(https://h/b, depth 1)` even though its depth exceeds
the per-hostname effective bound 0 under which, per the claim (and the
README's documented `maxDepth` config option), it should have been
discarded unprocessed. -/
theorem c1_override_ignored :
    (download pC1 "https://h/a" 10 ⟨[], []⟩).2 = [("https://h/a", 0), ("https://h/b", 1)]
    ∧ specEffectiveMaxDepth (pC1.siteCfg "h") pC1.maxDepth = 0
    ∧ 1 > specEffectiveMaxDepth (pC1.siteCfg "h") pC1.maxDepth :=
  ⟨rfl, rfl, by decide⟩

/-- C3: `shouldSkipUrl` tests only the hardcoded global pattern list and the
site-config `skipPatterns` field is never read: with config
`{"h": {"skipPatterns": ["/changelog"]}}`, link discovery on the seed page
enqueues `https://h/changelog` (and the run then processes it), although the
link matches the config's skip entry and, per the claim (and the README's
documented `skipPatterns` option), it should never be enqueued. -/
theorem c3_config_skip_ignored :
    findAndQueueLinks pC3 "htmlA3" "https://h/a" ["https://h/a"] [] 0 =
        [⟨"https://h/changelog", 1⟩]
    ∧ (download pC3 "https://h/a" 10 ⟨[], []⟩).2 =
        [("https://h/a", 0), ("https://h/changelog", 1)]
    ∧ "/changelog" ∈ (pC3.siteCfg "h").skipPatterns
    ∧ strContains "https://h/changelog" "/changelog" = true :=
  ⟨rfl, rfl, by decide, rfl⟩

/-- C2 (counterexample): the page `https://h/a` itself serves
`<html>AAA</html>`, while the probed candidate `https://h/a.md` serves the
HTML body `<html>BBB</html>`.  The code persists the conversion of the
extracted body that the candidate returned (`<html>BBB</html>` under identity
extract/convert oracles), which differs from the conversion of the content
extracted from the HTML fetched from the page's own URL (`<html>AAA</html>`)
that the claim asserts. -/
theorem c2_counterexample :
    downloadMarkdownCall pC2 "https://h/a.md" "https://h/a" =
      some ⟨"<html>BBB</html>", "out/h/a.md", "https://h/a"⟩
    ∧ pC2.env.convert
        (pC2.env.extract ((pC2.env.fetch "https://h/a").getD "") "https://h/a") =
        "<html>AAA</html>"
    ∧ ("<html>BBB</html>" : String) ≠ "<html>AAA</html>" :=
  ⟨rfl, rfl, by decide⟩

/-- C2 (amended): when the body fetched from the markdown candidate `m`,
trimmed, starts with an HTML doctype or `<html` tag, the content persisted
for the page `p` equals the markdown conversion of the content extracted from
the HTML body that `m` itself returned (with `p`'s URL selecting the
extraction rules), at the path derived from `p`'s URL and with `p`'s URL as
the recorded source — not the raw body of `m`, and not a conversion of HTML
re-fetched from `p`'s own URL. -/
theorem c2_html_reconvert (p : Params) (mdUrl originalUrl body : String) (hdr : Option String)
    (hm : p.env.mdFetch mdUrl = some (body, hdr))
    (hh : strStartsWith (strTrim body) "<!DOCTYPE html" = true ∨
          strStartsWith (strTrim body) "<html" = true) :
    downloadMarkdownCall p mdUrl originalUrl =
      some ⟨p.env.convert (p.env.extract body originalUrl),
            getFilePath p.siteDir originalUrl, originalUrl⟩ := by
  have hhtml : isHtmlResp body hdr = true := by
    unfold isHtmlResp
    rcases hh with h | h <;> simp [h]
  simp [downloadMarkdownCall, hm, hhtml]

theorem c2_html_reconvert_witness :
    downloadMarkdownCall pC2 "https://h/a.md" "https://h/a" =
      some ⟨"<html>BBB</html>", "out/h/a.md", "https://h/a"⟩ :=
  c2_html_reconvert pC2 "https://h/a.md" "https://h/a" "<html>BBB</html>" none rfl
    (Or.inr rfl)

/-- C4 (counterexample): a HEAD-case candidate with status 200 and
content-type `application/json` is accepted by the code because the
candidate URL ends in `.md`, although the claim's condition (content-type
blank, `text/plain`, markdown MIME, or `application/octet-stream`) rejects
it. -/
theorem c4_counterexample :
    headAccepted 200 (some "application/json") "https://h/a.md" = true
    ∧ headAcceptedSpec 200 (some "application/json") = false :=
  ⟨rfl, rfl⟩

/-- C4 (amended): in the HEAD case a candidate is accepted as markdown if and
only if the status is 200 or 206, the lowercased content-type is blank or
contains `text/plain`, `markdown`, `text/markdown` or
`application/octet-stream` or the candidate URL ends in `.md`, and the
content-type does not contain `text/html`. -/
theorem c4_head_accept_iff (status : Nat) (hdr : Option String) (mdUrl : String) :
    headAccepted status hdr mdUrl = true ↔
      ((status = 200 ∨ status = 206) ∧
       (contentTypeOf hdr = "" ∨
        strContains (contentTypeOf hdr) "text/plain" = true ∨
        strContains (contentTypeOf hdr) "markdown" = true ∨
        strContains (contentTypeOf hdr) "text/markdown" = true ∨
        strContains (contentTypeOf hdr) "application/octet-stream" = true ∨
        strEndsWith mdUrl ".md" = true) ∧
       strContains (contentTypeOf hdr) "text/html" = false) := by
  unfold headAccepted
  simp only [Bool.and_eq_true, Bool.or_eq_true, beq_iff_eq, Bool.not_eq_true']
  tauto

/-- C5: a URL is dequeued-and-processed at most once per run (the processed
trace has pairwise-distinct URLs, however often a URL was enqueued); the
visited-set insertion is the first micro-event of `processPage`, before any
network call, and the insertion is exactly a cons onto the visited set; and a
URL in the visited set is still in it after any further crawling (never
removed during the run). -/
theorem c5_visited_once :
    (∀ p fuel st, (((crawlLoop p fuel st).2).map Prod.fst).Nodup)
    ∧ (∀ p url d st,
        ((processPage p url d st).2).head? = some (MicroEv.addVisited url)
        ∧ ((processPage p url d st).1).visited = url :: st.visited)
    ∧ (∀ p fuel st u, u ∈ st.visited → u ∈ ((crawlLoop p fuel st).1).visited) :=
  ⟨fun p fuel st => (crawl_trace_fresh p fuel st).1,
   fun p url d st => ⟨processPage_events_head p url d st, processPage_visited p url d st⟩,
   fun p => crawl_visited_mono p⟩

theorem c5_visited_once_witness :
    "u" ∈ ((crawlLoop pC8 1 ⟨["u"], [], ⟨[], []⟩⟩).1).visited :=
  c5_visited_once.2.2 pC8 1 ⟨["u"], [], ⟨[], []⟩⟩ "u" (by decide)

/-- C6: path derivation is a pure function of the URL (a Lean function, so
identical inputs give identical outputs by definition); `https://h/` and
`https://h` derive the same path, which is `<siteDir>/index.md`; and for
every pathname the derived name ends in `.md` and contains none of the
characters `<>:"|?*`. -/
theorem c6_path_derivation :
    (∀ d : String, getFilePath d "https://h/" = getFilePath d "https://h")
    ∧ (∀ d : String, getFilePath d "https://h" = d ++ "/" ++ "index.md")
    ∧ (∀ pathname : List Char, mdExt <:+ derivePathChars pathname)
    ∧ (∀ pathname : List Char,
        (derivePathChars pathname).all (fun c => !(badChar c)) = true) := by
  refine ⟨fun d => rfl, fun d => rfl, fun pathname => ?_, fun pathname => ?_⟩
  · exact sanitizeChars_keeps_mdExt
      (stripLeadSlash_keeps_mdExt (ensureMdExt_suffix _))
  · rw [List.all_eq_true]
    intro c hc
    unfold derivePathChars sanitizeChars at hc
    obtain ⟨a, -, rfl⟩ := List.mem_map.mp hc
    cases hb : badChar a with
    | true => rfl
    | false => simp [hb]

/-- C7: with force off and the file already present, `saveMarkdown` returns
the filesystem unchanged (no write, no error); otherwise it writes the
content — prefixed with the metadata block exactly when metadata mode is on —
at the given path and ensures the parent directory. -/
theorem c7_save_contract (force includeMeta : Bool) (fs : Fs) (md fp src ts : String) :
    (force = false → pathExists fs fp = true →
       saveMarkdown force includeMeta fs md fp src ts = fs)
    ∧ ((force = true ∨ pathExists fs fp = false) →
       lookupFile (saveMarkdown force includeMeta fs md fp src ts) fp =
           some (if includeMeta then metaHeader src ts ++ md else md)
       ∧ parentDir fp ∈ (saveMarkdown force includeMeta fs md fp src ts).dirs) := by
  constructor
  · intro hf hp
    subst hf
    unfold saveMarkdown
    rw [if_pos (by rw [hp]; rfl)]
  · intro h
    have hcond : (!force && pathExists fs fp) = false := by
      rcases h with rfl | hp
      · rfl
      · rw [hp, Bool.and_false]
    unfold saveMarkdown
    rw [hcond]
    simp only [Bool.false_eq_true, if_false]
    refine ⟨lookup_write _ _ _, ?_⟩
    rw [writeFileFs_dirs]
    exact ensureDir_mem fs (parentDir fp)

theorem c7_save_contract_witness :
    saveMarkdown false false ⟨[("d/f.md", "old")], []⟩ "new" "d/f.md" "u" "T" =
        ⟨[("d/f.md", "old")], []⟩
    ∧ lookupFile (saveMarkdown true true ⟨[], []⟩ "b" "d/f.md" "u" "T") "d/f.md" =
        some (metaHeader "u" "T" ++ "b") :=
  ⟨(c7_save_contract false false ⟨[("d/f.md", "old")], []⟩ "new" "d/f.md" "u" "T").1 rfl rfl,
   ((c7_save_contract true true ⟨[], []⟩ "b" "d/f.md" "u" "T").2 (Or.inl rfl)).1⟩

/-- C9: every crawl run terminates: each fetched page contributes a finite
link list, links are enqueued only from pages at depth strictly below the
bound (at depth + 1), and the visited set prevents reprocessing; the initial
queue weight bounds the number of loop iterations, so running the loop with
that much fuel drains the frontier completely. -/
theorem c9_termination (p : Params) (startUrl : String) (fs0 : Fs) :
    ((download p startUrl (runFuel p startUrl) fs0).1).queue = [] :=
  crawl_fuel_sufficient p (runFuel p startUrl) (initState p startUrl fs0) (Nat.le_refl _)

/-! ### fetchPage retry lemmas -/

lemma fetchAttempts_le (oc : Nat → Option String) :
    ∀ r a, (fetchAttempts oc a r).attempts ≤ r := by
  intro r
  induction r with
  | zero => intro a; exact Nat.le_refl 0
  | succ r ih =>
    intro a
    cases hoc : oc a with
    | some b => simp [fetchAttempts, hoc]
    | none =>
      simp only [fetchAttempts, hoc]
      by_cases hr : r = 0
      · rw [if_pos hr]
        dsimp only
        omega
      · rw [if_neg hr]
        dsimp only
        have := ih (a + 1)
        omega

lemma fetchAttempts_pos (oc : Nat → Option String) (r a : Nat) (hr : 1 ≤ r) :
    1 ≤ (fetchAttempts oc a r).attempts := by
  cases r with
  | zero => omega
  | succ r =>
    cases hoc : oc a with
    | some b => simp [fetchAttempts, hoc]
    | none =>
      simp only [fetchAttempts, hoc]
      by_cases hr0 : r = 0
      · rw [if_pos hr0]
      · rw [if_neg hr0]
        dsimp only
        omega

lemma fetchAttempts_delays (oc : Nat → Option String) :
    ∀ r a, (fetchAttempts oc a r).delays =
      (List.range' a ((fetchAttempts oc a r).attempts - 1)).map (fun i => retryDelay * i) := by
  intro r
  induction r with
  | zero => intro a; rfl
  | succ r ih =>
    intro a
    cases hoc : oc a with
    | some b => simp [fetchAttempts, hoc]
    | none =>
      simp only [fetchAttempts, hoc]
      by_cases hr : r = 0
      · rw [if_pos hr]
        rfl
      · rw [if_neg hr]
        dsimp only
        rw [ih (a + 1)]
        have hpos : 1 ≤ (fetchAttempts oc (a + 1) r).attempts :=
          fetchAttempts_pos oc r (a + 1) (by omega)
        obtain ⟨k, hk⟩ : ∃ k, (fetchAttempts oc (a + 1) r).attempts = k + 1 :=
          ⟨(fetchAttempts oc (a + 1) r).attempts - 1, by omega⟩
        rw [hk]
        have h1 : k + 1 + 1 - 1 = k + 1 := by omega
        have h2 : k + 1 - 1 = k := by omega
        rw [h1, h2, List.range'_succ a k 1]
        rfl

/-- C8: a primary page fetch makes at most 3 attempts; the delays slept
between consecutive attempts are `retryDelay * 1, retryDelay * 2, ...`
(attempt number times base delay); when all 3 attempts fail `fetchPage`
returns `null` after exactly the two delays; and a run whose seed fetch
fails terminally completes with an empty frontier and no file written —
the failure is absorbed, never thrown. -/
theorem c8_retry_and_abandon :
    (∀ oc, (fetchPage oc).attempts ≤ maxRetries)
    ∧ (∀ oc, (fetchPage oc).delays =
        (List.range' 1 ((fetchPage oc).attempts - 1)).map (fun i => retryDelay * i))
    ∧ (∀ oc, oc 1 = none → oc 2 = none → oc 3 = none →
        fetchPage oc = ⟨none, 3, [retryDelay * 1, retryDelay * 2]⟩)
    ∧ (∀ p startUrl fs0, p.env.fetch startUrl = none →
        ((download p startUrl (runFuel p startUrl) fs0).1).queue = []
        ∧ ((download p startUrl (runFuel p startUrl) fs0).1).fs.files = fs0.files) := by
  refine ⟨fun oc => fetchAttempts_le oc maxRetries 1,
          fun oc => fetchAttempts_delays oc maxRetries 1, ?_, ?_⟩
  · intro oc h1 h2 h3
    show fetchAttempts oc 1 (2 + 1) = _
    simp only [fetchAttempts]
    rw [h1, h2, h3]
    rfl
  · intro p startUrl fs0 hf
    have hfuel : runFuel p startUrl = 0 + 1 := by
      simp [runFuel, queueWeight, entryWeight, linkW_fetch_none p startUrl hf]
    have hd0 : ¬((⟨startUrl, 0⟩ : Entry).url ∈ (initState p startUrl fs0).visited ∨
        (⟨startUrl, 0⟩ : Entry).depth > p.maxDepth) := by
      simp [initState]
    unfold download
    rw [hfuel, crawlLoop_cons_process p 0 (initState p startUrl fs0) ⟨startUrl, 0⟩ [] rfl hd0,
      crawlLoop_zero]
    constructor
    · exact processPage_queue_none p startUrl 0 _ hf
    · rw [processPage_fs_none p startUrl 0 _ hf]
      show (ensureDir fs0 p.siteDir).files = fs0.files
      exact ensureDir_files fs0 p.siteDir

theorem c8_retry_and_abandon_witness :
    fetchPage (fun _ => none) = ⟨none, 3, [retryDelay * 1, retryDelay * 2]⟩
    ∧ ((download pC8 "https://h/x" (runFuel pC8 "https://h/x") ⟨[], []⟩).1).queue = []
    ∧ ((download pC8 "https://h/x" (runFuel pC8 "https://h/x") ⟨[], []⟩).1).fs.files = [] :=
  ⟨c8_retry_and_abandon.2.2.1 (fun _ => none) rfl rfl rfl,
   (c8_retry_and_abandon.2.2.2 pC8 "https://h/x" ⟨[], []⟩ rfl).1,
   (c8_retry_and_abandon.2.2.2 pC8 "https://h/x" ⟨[], []⟩ rfl).2⟩

/-- C10: when the probed markdown candidate's body is accepted verbatim (not
classified as HTML), the file path is derived from the original page URL but
the recorded source URL is the candidate `mdUrl` — and with metadata mode on,
the persisted file content is the metadata header naming `mdUrl` followed by
the body.  In both HTML-conversion branches (the disguised-HTML candidate and
the plain HTML fallback of `processPage`) the recorded source URL is the
original page URL. -/
theorem c10_source_url :
    (∀ p mdUrl origUrl body hdr, p.env.mdFetch mdUrl = some (body, hdr) →
       isHtmlResp body hdr = false →
       downloadMarkdownCall p mdUrl origUrl =
         some ⟨body, getFilePath p.siteDir origUrl, mdUrl⟩)
    ∧ (∀ p mdUrl origUrl body hdr, p.env.mdFetch mdUrl = some (body, hdr) →
       isHtmlResp body hdr = true →
       (downloadMarkdownCall p mdUrl origUrl).map SaveCall.sourceUrl = some origUrl)
    ∧ (∀ p url html, p.env.probe url = none →
       (p.siteCfg p.baseHost).preferMarkdown = false →
       (pageSaveCall p url html).map SaveCall.sourceUrl = some url)
    ∧ (∀ p mdUrl origUrl body hdr fs, p.env.mdFetch mdUrl = some (body, hdr) →
       isHtmlResp body hdr = false → p.force = true → p.includeMetadata = true →
       lookupFile (downloadMarkdownRun p mdUrl origUrl fs) (getFilePath p.siteDir origUrl) =
         some (metaHeader mdUrl p.env.now ++ body)) := by
  have hcall : ∀ p mdUrl origUrl body hdr, p.env.mdFetch mdUrl = some (body, hdr) →
      isHtmlResp body hdr = false →
      downloadMarkdownCall p mdUrl origUrl =
        some ⟨body, getFilePath p.siteDir origUrl, mdUrl⟩ := by
    intro p mdUrl origUrl body hdr hm hh
    simp [downloadMarkdownCall, hm, hh]
  refine ⟨hcall, ?_, ?_, ?_⟩
  · intro p mdUrl origUrl body hdr hm hh
    simp [downloadMarkdownCall, hm, hh]
  · intro p url html hp hpref
    simp [pageSaveCall, hp, hpref]
  · intro p mdUrl origUrl body hdr fs hm hh hforce hmeta
    rw [downloadMarkdownRun, hcall p mdUrl origUrl body hdr hm hh]
    dsimp only
    unfold saveMarkdown
    rw [hforce, hmeta]
    simp only [Bool.not_true, Bool.false_and, Bool.false_eq_true, if_false, if_true]
    exact lookup_write _ _ _

theorem c10_source_url_witness :
    downloadMarkdownCall pC10 "https://h/m.md" "https://h/p" =
        some ⟨"# Title", "out/h/p.md", "https://h/m.md"⟩
    ∧ lookupFile (downloadMarkdownRun pC10 "https://h/m.md" "https://h/p" ⟨[], []⟩)
        "out/h/p.md" =
        some (metaHeader "https://h/m.md" "T" ++ "# Title") :=
  ⟨c10_source_url.1 pC10 "https://h/m.md" "https://h/p" "# Title" (some "text/plain") rfl rfl,
   c10_source_url.2.2.2 pC10 "https://h/m.md" "https://h/p" "# Title" (some "text/plain")
     ⟨[], []⟩ rfl rfl rfl rfl⟩

end DocsDL
